import Mathlib

/-!
Verification of the save-file decoding pipeline.

The repository's visible source is the glue harness
(test-python-parser.py): it loads a save image, extracts party and box
slots, parses each non-empty slot (isolating per-slot failures), chunks
box records into boxes of 30, and assembles a result dictionary.  The
loop and assembly logic below is embedded directly from that harness.
The collaborators it imports (section locator, slot extractors, record
decoder) are not part of the visible source; where a claim depends on
them they are modelled from the specification and marked as such.
-/

set_option autoImplicit false

namespace SavePipeline

/-- A raw slot: a fixed-size window of bytes (each byte a `Nat < 256`). -/
abbrev RawSlot := List Nat

/-- Modelled from the spec: a slot is empty iff every byte is zero
(§4.2 emptiness policy); the harness skips slots the extractor marked
empty (`if p:` in the loops). -/
def isEmptySlot (s : RawSlot) : Bool :=
  s.all (fun b => b == 0)

/-- A fixed record of six named stat components (used for IVs and EVs). -/
structure StatBlock where
  hp : Nat
  attack : Nat
  defense : Nat
  special_attack : Nat
  special_defense : Nat
  speed : Nat
deriving Repr, DecidableEq

/-- The decoded, normalized output record (spec §3 data model; field
names follow the attributes the harness reads off a parsed Pokemon). -/
structure PokemonRecord where
  species_id : Nat
  level : Nat
  nature : Nat
  ability_index : Nat
  held_item_id : Nat
  experience : Nat
  move_ids : List Nat
  ivs : StatBlock
  evs : StatBlock
  nickname : List Nat
  is_egg_flag : Bool
  has_ha_flag : Bool
  personality : Nat
  otid : Nat
deriving Repr, DecidableEq

/-- Per-slot decode failure (spec §4.3). -/
inductive DecodeError where
  | Checksum
  | Corrupt
deriving Repr, DecidableEq

/-- Fatal whole-parse failure (spec §6/§7). -/
inductive SaveError where
  | CorruptImage
deriving Repr, DecidableEq

/-! ## The record decoder, modelled from the spec (§4.3)

The decoder classes imported by the harness are not part of the visible
source; every definition in this block is modelled from the spec. -/

/-- Modelled from the spec: the unencrypted per-record header (two
32-bit seed values, redundant level, nickname bytes, the stored 16-bit
checksum) together with the 48-byte encrypted payload. -/
structure RawRecord where
  personality : Nat
  otid : Nat
  level : Nat
  nickname : List Nat
  storedChecksum : Nat
  payload : List Nat

/-- Byte `i` of the 32-bit XOR key (little-endian). -/
def keyByte (key i : Nat) : Nat :=
  (key >>> (8 * i)) % 256

/-- Modelled from the spec: XOR each 32-bit word of the payload with the
key; bytewise this XORs byte `i` with key byte `i % 4`.  `i` is the
index of the first byte of `bs` within the payload. -/
def decryptFrom (key : Nat) : Nat → List Nat → List Nat
  | _, [] => []
  | i, b :: rest => (b ^^^ keyByte key (i % 4)) :: decryptFrom key (i + 1) rest

/-- Decrypt a whole payload. -/
def decryptBytes (key : Nat) (bs : List Nat) : List Nat :=
  decryptFrom key 0 bs

/-- Modelled from the spec: sum of all 16-bit little-endian words of a
byte list (the wrapping happens at the final `% 65536`). -/
def checksumSum : List Nat → Nat
  | [] => 0
  | [a] => a
  | a :: b :: rest => a + 256 * b + checksumSum rest

/-- Modelled from the spec: the fixed table of the 24 possible orderings
of the four substructures (0 = Growth, 1 = Attack, 2 = Condition,
3 = Miscellaneous); row `p` lists the substructure occupying each
successive quarter of the payload when `personality % 24 = p`. -/
def permTable : List (List Nat) :=
  [[0, 1, 2, 3], [0, 1, 3, 2], [0, 2, 1, 3], [0, 2, 3, 1], [0, 3, 1, 2], [0, 3, 2, 1],
   [1, 0, 2, 3], [1, 0, 3, 2], [1, 2, 0, 3], [1, 2, 3, 0], [1, 3, 0, 2], [1, 3, 2, 0],
   [2, 0, 1, 3], [2, 0, 3, 1], [2, 1, 0, 3], [2, 1, 3, 0], [2, 3, 0, 1], [2, 3, 1, 0],
   [3, 0, 1, 2], [3, 0, 2, 1], [3, 1, 0, 2], [3, 1, 2, 0], [3, 2, 0, 1], [3, 2, 1, 0]]

/-- Which quarter of the decrypted payload holds substructure `sub`
under permutation index `perm`. -/
def subQuarter (perm sub : Nat) : Nat :=
  (permTable.getD perm [0, 1, 2, 3]).findIdx (fun x => x == sub)

/-- The 12 bytes of substructure `sub` of a decrypted payload. -/
def subChunk (dec : List Nat) (perm sub : Nat) : List Nat :=
  (dec.drop (12 * subQuarter perm sub)).take 12

/-- Little-endian 16-bit read at byte offset `i`. -/
def le16 (l : List Nat) (i : Nat) : Nat :=
  l.getD i 0 + 256 * l.getD (i + 1) 0

/-- Little-endian 32-bit read at byte offset `i`. -/
def le32 (l : List Nat) (i : Nat) : Nat :=
  l.getD i 0 + 256 * l.getD (i + 1) 0 + 65536 * l.getD (i + 2) 0 +
    16777216 * l.getD (i + 3) 0

/-- Modelled from the spec (§4.3 decode algorithm): derive the XOR key
from the two seeds, decrypt, validate the 16-bit wrapping checksum of
the decrypted payload against the stored checksum (mismatch is
`DecodeError.Checksum`), locate the four substructures through the
permutation table indexed by `personality % 24`, and unpack the fields
(IVs are six 5-bit fields of the Miscellaneous 32-bit word, followed by
the egg and hidden-ability flag bits). -/
def decode (r : RawRecord) : Except DecodeError PokemonRecord :=
  let key := r.personality ^^^ r.otid
  let dec := decryptBytes key r.payload
  if checksumSum dec % 65536 = r.storedChecksum then
    let perm := r.personality % 24
    let growth := subChunk dec perm 0
    let atk := subChunk dec perm 1
    let cond := subChunk dec perm 2
    let misc := subChunk dec perm 3
    let w := le32 misc 4
    Except.ok
      { species_id := le16 growth 0
        level := r.level
        nature := r.personality % 25
        ability_index := if (w >>> 31) % 2 == 1 then 2 else r.otid % 2
        held_item_id := le16 growth 2
        experience := le32 growth 4
        move_ids := [le16 atk 0, le16 atk 2, le16 atk 4, le16 atk 6]
        ivs :=
          { hp := w % 32
            attack := (w >>> 5) % 32
            defense := (w >>> 10) % 32
            speed := (w >>> 15) % 32
            special_attack := (w >>> 20) % 32
            special_defense := (w >>> 25) % 32 }
        evs :=
          { hp := cond.getD 0 0
            attack := cond.getD 1 0
            defense := cond.getD 2 0
            speed := cond.getD 3 0
            special_attack := cond.getD 4 0
            special_defense := cond.getD 5 0 }
        nickname := r.nickname
        is_egg_flag := (w >>> 30) % 2 == 1
        has_ha_flag := (w >>> 31) % 2 == 1
        personality := r.personality
        otid := r.otid }
  else
    Except.error DecodeError.Checksum

/-! ## The harness loops (embedded from src/test-python-parser.py) -/

/-- The party loop of the harness (lines 36-44): skip slots marked
empty, parse the rest, append successes in order, skip failures. -/
def partyLoop (parse : RawSlot → Except DecodeError PokemonRecord) :
    List RawSlot → List PokemonRecord
  | [] => []
  | p :: rest =>
    if isEmptySlot p then partyLoop parse rest
    else
      match parse p with
      | Except.ok r => r :: partyLoop parse rest
      | Except.error _ => partyLoop parse rest

/-- The record a slot contributes, if any: nothing when the slot is
empty or its parse fails, the parsed record otherwise. -/
def slotRecord (parse : RawSlot → Except DecodeError PokemonRecord)
    (p : RawSlot) : Option PokemonRecord :=
  if isEmptySlot p then none else (parse p).toOption

/-- The ordered records contributed by a slot sequence. -/
def recordsOf (parse : RawSlot → Except DecodeError PokemonRecord)
    (slots : List RawSlot) : List PokemonRecord :=
  slots.filterMap (slotRecord parse)

/-- One iteration of the harness box loop (lines 58-73), on the state
(boxes so far, current box, slots consumed): a non-empty slot that
parses is appended to the current box, `pokemon_count` increments for
every slot, and every 30 consumed slots the current box is emitted and
reset. -/
def boxStep (parse : RawSlot → Except DecodeError PokemonRecord)
    (st : List (List PokemonRecord) × List PokemonRecord × Nat) (p : RawSlot) :
    List (List PokemonRecord) × List PokemonRecord × Nat :=
  let boxes := st.1
  let current := st.2.1
  let count := st.2.2
  let current' :=
    if isEmptySlot p then current
    else
      match parse p with
      | Except.ok r => current ++ [r]
      | Except.error _ => current
  let count' := count + 1
  if count' % 30 = 0 then (boxes ++ [current'], [], count')
  else (boxes, current', count')

/-- The box loop of the harness (lines 54-78): fold the step over all
box slots starting from empty state, then append the final box only if
it is non-empty (`if current_box:`). -/
def boxLoop (parse : RawSlot → Except DecodeError PokemonRecord)
    (slots : List RawSlot) : List (List PokemonRecord) :=
  let st := slots.foldl (boxStep parse) ([], [], 0)
  if st.2.1.isEmpty then st.1 else st.1 ++ [st.2.1]

/-- Split a slot sequence into its full 30-slot chunks and the trailing
remainder (possibly empty); the reference shape for `boxLoop`. -/
def splitChunks (l : List RawSlot) : List (List RawSlot) × List RawSlot :=
  if l.length < 30 then ([], l)
  else
    (l.take 30 :: (splitChunks (l.drop 30)).1, (splitChunks (l.drop 30)).2)
termination_by l.length
decreasing_by
  all_goals
    simp only [List.length_drop]
    omega

/-! ## The harness top level (embedded from src/test-python-parser.py) -/

/-- The name-resolution collaborator (external, spec §4.4): consumed by
the harness when building the output dictionaries. -/
structure GameDataManager where
  get_species_name : Nat → String
  get_move_name : Nat → String
  get_ability_name : Nat → String → Bool → String
  get_item_name : Nat → String

/-- The dictionary the harness builds per Pokemon (lines 116-161). -/
structure PokemonDict where
  species_id : Nat
  name : String
  level : Nat
  ability_index : Nat
  ability_name : String
  nature : Nat
  move_ids : List Nat
  move_names : List String
  held_item_id : Nat
  held_item_name : String
  ivs : StatBlock
  evs : StatBlock
  nickname : List Nat
  is_egg : Bool
  has_hidden_ability : Bool

/-- `pokemon_to_dict` of the harness (lines 116-161): copy the decoded
fields and resolve display names through the data manager. -/
def pokemon_to_dict (dm : GameDataManager) (pkmn : PokemonRecord) : PokemonDict :=
  { species_id := pkmn.species_id
    name := (dm.get_species_name pkmn.species_id).toLower
    level := pkmn.level
    ability_index := pkmn.ability_index
    ability_name :=
      dm.get_ability_name pkmn.ability_index
        (dm.get_species_name pkmn.species_id) pkmn.has_ha_flag
    nature := pkmn.nature
    move_ids := pkmn.move_ids
    move_names := (pkmn.move_ids.filter (fun m => 0 < m)).map dm.get_move_name
    held_item_id := pkmn.held_item_id
    held_item_name := dm.get_item_name pkmn.held_item_id
    ivs := pkmn.ivs
    evs := pkmn.evs
    nickname := pkmn.nickname
    is_egg := pkmn.is_egg_flag
    has_hidden_ability := pkmn.has_ha_flag }

/-- The active and expanded blocks located in the image (spec §4.1). -/
structure SaveBlocks where
  active : List Nat
  expanded : List Nat

/-- The result dictionary the harness returns (lines 172-176). -/
structure ParseResult where
  party : List PokemonDict
  boxes : List (List PokemonDict)
  total_pokemon : Nat

/-- `parse_sav_file` of the harness: locate the sections (any locator
failure propagates, lines 19-25 and 187-189), run the party loop and
the box loop, and assemble the result with `total_pokemon` computed
from the record lists (lines 163-176).  The missing collaborators
(section locator, slot extractors, slot parsers) are taken as
parameters. -/
def parse_sav_file
    (locate : List Nat → Except SaveError SaveBlocks)
    (party_slots : List Nat → List RawSlot)
    (box_slots : List Nat → List Nat → List RawSlot)
    (partyParse boxParse : RawSlot → Except DecodeError PokemonRecord)
    (dm : GameDataManager)
    (raw : List Nat) : Except SaveError ParseResult :=
  match locate raw with
  | Except.error e => Except.error e
  | Except.ok blocks =>
    let party := partyLoop partyParse (party_slots blocks.active)
    let boxes := boxLoop boxParse (box_slots blocks.active blocks.expanded)
    Except.ok
      { party := party.map (pokemon_to_dict dm)
        boxes := boxes.map (fun b => b.map (pokemon_to_dict dm))
        total_pokemon := party.length + (boxes.map List.length).sum }

/-! ## Concrete inputs used by the witness theorems -/

/-- An all-zero raw record: zero seeds, zero stored checksum, 48-byte
zero payload.  Its decrypted payload is all zero, so its checksum
validates and it decodes successfully. -/
def r0 : RawRecord :=
  { personality := 0
    otid := 0
    level := 5
    nickname := []
    storedChecksum := 0
    payload := List.replicate 48 0 }

/-- The record `r0` decodes to. -/
def rec0 : PokemonRecord :=
  { species_id := 0
    level := 5
    nature := 0
    ability_index := 0
    held_item_id := 0
    experience := 0
    move_ids := [0, 0, 0, 0]
    ivs := ⟨0, 0, 0, 0, 0, 0⟩
    evs := ⟨0, 0, 0, 0, 0, 0⟩
    nickname := []
    is_egg_flag := false
    has_ha_flag := false
    personality := 0
    otid := 0 }

/-- A slot parser that always succeeds (used by witnesses). -/
def okParse : RawSlot → Except DecodeError PokemonRecord :=
  fun _ => Except.ok rec0

/-- A slot parser that always fails (used by witnesses). -/
def errParse : RawSlot → Except DecodeError PokemonRecord :=
  fun _ => Except.error DecodeError.Checksum

/-- A trivial name resolver (used by witnesses). -/
def dmTrivial : GameDataManager :=
  { get_species_name := fun _ => ""
    get_move_name := fun _ => ""
    get_ability_name := fun _ _ _ => ""
    get_item_name := fun _ => "" }

/-- A parser that fails exactly on the slot `[1]` (used by witnesses). -/
def oneFailParse : RawSlot → Except DecodeError PokemonRecord :=
  fun s =>
    if s = [1] then Except.error DecodeError.Checksum else Except.ok rec0

/-- Distinct records for the party-order example (used by witnesses). -/
def recA : PokemonRecord := { rec0 with species_id := 1 }

def recB : PokemonRecord := { rec0 with species_id := 2 }

def recC : PokemonRecord := { rec0 with species_id := 3 }

/-- The parser of the spec's party example: slot `[k]` decodes to the
record with species `k` (used by witnesses). -/
def exParse : RawSlot → Except DecodeError PokemonRecord :=
  fun s =>
    if s = [1] then Except.ok recA
    else if s = [2] then Except.ok recB
    else if s = [3] then Except.ok recC
    else Except.error DecodeError.Checksum

/-- The spec's party example: slots [empty, A, empty, B, C, empty]. -/
def exSlots : List RawSlot := [[0], [1], [0], [2], [3], [0]]

/-- A locator that always fails (used by witnesses). -/
def locFail : List Nat → Except SaveError SaveBlocks :=
  fun _ => Except.error SaveError.CorruptImage

/-- A locator that always succeeds with empty blocks (used by witnesses). -/
def locOk : List Nat → Except SaveError SaveBlocks :=
  fun _ => Except.ok { active := [], expanded := [] }

/-- A party extractor producing no slots (used by witnesses). -/
def noSlots : List Nat → List RawSlot := fun _ => []

/-- A box extractor producing no slots (used by witnesses). -/
def noBoxSlots : List Nat → List Nat → List RawSlot := fun _ _ => []

/-! ## Helper lemmas -/

/-- A slot whose bytes are all zero is detected as empty. -/
lemma isEmptySlot_of_all_zero {s : RawSlot} (h : ∀ b ∈ s, b = 0) :
    isEmptySlot s = true := by
  simp only [isEmptySlot, List.all_eq_true, beq_iff_eq]
  exact h

lemma recordsOf_nil (parse : RawSlot → Except DecodeError PokemonRecord) :
    recordsOf parse [] = [] := rfl

lemma recordsOf_cons (parse : RawSlot → Except DecodeError PokemonRecord)
    (p : RawSlot) (rest : List RawSlot) :
    recordsOf parse (p :: rest) =
      (slotRecord parse p).toList ++ recordsOf parse rest := by
  cases h : slotRecord parse p <;>
    simp [recordsOf, List.filterMap_cons, h]

lemma recordsOf_append (parse : RawSlot → Except DecodeError PokemonRecord)
    (l1 l2 : List RawSlot) :
    recordsOf parse (l1 ++ l2) = recordsOf parse l1 ++ recordsOf parse l2 := by
  simp [recordsOf, List.filterMap_append]

/-- The party loop computes exactly the records of the slot sequence,
in order. -/
lemma partyLoop_eq_recordsOf (parse : RawSlot → Except DecodeError PokemonRecord) :
    ∀ slots : List RawSlot, partyLoop parse slots = recordsOf parse slots := by
  intro slots
  induction slots with
  | nil => rfl
  | cons p rest ih =>
    rw [recordsOf_cons]
    unfold partyLoop slotRecord
    by_cases h : isEmptySlot p = true
    · simp [h, ih]
    · cases hp : parse p <;> simp [h, hp, ih, Except.toOption]

/-- One box-loop step, rephrased through `slotRecord`. -/
lemma boxStep_eq (parse : RawSlot → Except DecodeError PokemonRecord)
    (boxes : List (List PokemonRecord)) (current : List PokemonRecord)
    (count : Nat) (p : RawSlot) :
    boxStep parse (boxes, current, count) p =
      if (count + 1) % 30 = 0 then
        (boxes ++ [current ++ (slotRecord parse p).toList], [], count + 1)
      else (boxes, current ++ (slotRecord parse p).toList, count + 1) := by
  unfold boxStep slotRecord
  by_cases h : isEmptySlot p = true
  · simp [h]
  · cases hp : parse p <;> simp [h, hp, Except.toOption]

/-- Folding the box step over a stretch of slots too short to reach the
next 30-slot boundary just extends the current box. -/
lemma foldl_boxStep_inner (parse : RawSlot → Except DecodeError PokemonRecord) :
    ∀ (slots : List RawSlot) (boxes : List (List PokemonRecord))
      (current : List PokemonRecord) (count : Nat),
      count % 30 + slots.length < 30 →
      slots.foldl (boxStep parse) (boxes, current, count) =
        (boxes, current ++ recordsOf parse slots, count + slots.length) := by
  intro slots
  induction slots with
  | nil => intro boxes current count h; simp [recordsOf]
  | cons p rest ih =>
    intro boxes current count h
    simp only [List.length_cons] at h
    rw [List.foldl_cons, boxStep_eq,
      if_neg (by omega : ¬ (count + 1) % 30 = 0),
      ih _ _ _ (by omega), recordsOf_cons]
    simp only [List.length_cons, List.append_assoc, Prod.mk.injEq, true_and]
    omega

/-- Folding the box step over a stretch of slots that ends exactly at a
30-slot boundary emits the extended current box and resets it. -/
lemma foldl_boxStep_boundary (parse : RawSlot → Except DecodeError PokemonRecord) :
    ∀ (slots : List RawSlot) (boxes : List (List PokemonRecord))
      (current : List PokemonRecord) (count : Nat),
      count % 30 + slots.length = 30 →
      slots.foldl (boxStep parse) (boxes, current, count) =
        (boxes ++ [current ++ recordsOf parse slots], [], count + slots.length) := by
  intro slots
  induction slots with
  | nil =>
    intro boxes current count h
    simp only [List.length_nil] at h
    exfalso
    omega
  | cons p rest ih =>
    intro boxes current count h
    simp only [List.length_cons] at h
    rw [List.foldl_cons, boxStep_eq]
    by_cases hb : (count + 1) % 30 = 0
    · have hr : rest = [] := List.length_eq_zero.mp (by omega)
      subst hr
      rw [if_pos hb]
      simp [recordsOf_cons, recordsOf_nil]
    · rw [if_neg hb, ih _ _ _ (by omega), recordsOf_cons]
      simp only [List.length_cons, List.append_assoc, Prod.mk.injEq, true_and]
      omega

/-- Unfolding equation for `splitChunks`. -/
lemma splitChunks_eq (l : List RawSlot) :
    splitChunks l =
      if l.length < 30 then ([], l)
      else (l.take 30 :: (splitChunks (l.drop 30)).1, (splitChunks (l.drop 30)).2) := by
  rw [splitChunks]

/-- Full characterization of the fold underlying the box loop, started
at a 30-slot boundary with an empty current box. -/
lemma foldl_boxStep_run (parse : RawSlot → Except DecodeError PokemonRecord) :
    ∀ (slots : List RawSlot) (boxes : List (List PokemonRecord)) (count : Nat),
      count % 30 = 0 →
      slots.foldl (boxStep parse) (boxes, [], count) =
        (boxes ++ (splitChunks slots).1.map (recordsOf parse),
          recordsOf parse (splitChunks slots).2, count + slots.length) := by
  have H : ∀ (n : Nat) (slots : List RawSlot), slots.length = n →
      ∀ (boxes : List (List PokemonRecord)) (count : Nat), count % 30 = 0 →
      slots.foldl (boxStep parse) (boxes, [], count) =
        (boxes ++ (splitChunks slots).1.map (recordsOf parse),
          recordsOf parse (splitChunks slots).2, count + slots.length) := by
    intro n
    induction n using Nat.strong_induction_on with
    | _ n ih =>
      intro slots hlen boxes count hc
      by_cases h30 : slots.length < 30
      · rw [splitChunks_eq, if_pos h30,
          foldl_boxStep_inner parse slots boxes [] count (by omega)]
        simp
      · rw [splitChunks_eq, if_neg h30]
        have htk : (slots.take 30).length = 30 := by
          simp only [List.length_take]
          omega
        have hdp : (slots.drop 30).length = slots.length - 30 := by
          simp
        calc slots.foldl (boxStep parse) (boxes, [], count)
            = ((slots.take 30) ++ (slots.drop 30)).foldl (boxStep parse)
                (boxes, [], count) := by
              rw [List.take_append_drop]
          _ = (slots.drop 30).foldl (boxStep parse)
                ((slots.take 30).foldl (boxStep parse) (boxes, [], count)) := by
              rw [List.foldl_append]
          _ = (slots.drop 30).foldl (boxStep parse)
                (boxes ++ [[] ++ recordsOf parse (slots.take 30)], [], count + 30) := by
              rw [foldl_boxStep_boundary parse (slots.take 30) boxes [] count
                (by omega), htk]
          _ = (boxes ++ [[] ++ recordsOf parse (slots.take 30)] ++
                (splitChunks (slots.drop 30)).1.map (recordsOf parse),
                recordsOf parse (splitChunks (slots.drop 30)).2,
                count + 30 + (slots.drop 30).length) := by
              rw [ih (slots.length - 30) (by omega) (slots.drop 30) hdp _ _
                (by omega)]
          _ = (boxes ++ ((slots.take 30) :: (splitChunks (slots.drop 30)).1).map
                  (recordsOf parse) ++ [],
                recordsOf parse (splitChunks (slots.drop 30)).2,
                count + slots.length) := by
              simp only [List.map_cons, List.nil_append, List.append_assoc,
                List.singleton_append, List.append_nil, hdp, Prod.mk.injEq,
                true_and]
              omega
          _ = (boxes ++ ((slots.take 30) :: (splitChunks (slots.drop 30)).1).map
                  (recordsOf parse),
                recordsOf parse (splitChunks (slots.drop 30)).2,
                count + slots.length) := by
              simp
  intro slots boxes count hc
  exact H slots.length slots rfl boxes count hc

/-- The box loop equals: the records of each full 30-slot chunk, in
order, followed by the records of the trailing chunk exactly when that
record list is non-empty. -/
lemma boxLoop_eq (parse : RawSlot → Except DecodeError PokemonRecord)
    (slots : List RawSlot) :
    boxLoop parse slots =
      (splitChunks slots).1.map (recordsOf parse) ++
        (if (recordsOf parse (splitChunks slots).2).isEmpty then []
         else [recordsOf parse (splitChunks slots).2]) := by
  unfold boxLoop
  rw [foldl_boxStep_run parse slots [] 0 rfl]
  by_cases h : (recordsOf parse (splitChunks slots).2).isEmpty
  · simp [h]
  · simp [h]

/-- The number of full chunks is the slot count divided by 30. -/
lemma splitChunks_fst_length (l : List RawSlot) :
    (splitChunks l).1.length = l.length / 30 := by
  have H : ∀ (n : Nat) (l : List RawSlot), l.length = n →
      (splitChunks l).1.length = l.length / 30 := by
    intro n
    induction n using Nat.strong_induction_on with
    | _ n ih =>
      intro l hlen
      by_cases h30 : l.length < 30
      · rw [splitChunks_eq, if_pos h30]
        simp only [List.length_nil]
        omega
      · rw [splitChunks_eq, if_neg h30]
        have hdp : (l.drop 30).length = l.length - 30 := by simp
        rw [List.length_cons, ih (l.length - 30) (by omega) (l.drop 30) hdp, hdp]
        omega
  exact H l.length l rfl

/-- The trailing chunk is what remains after the full chunks. -/
lemma splitChunks_snd (l : List RawSlot) :
    (splitChunks l).2 = l.drop (30 * (l.length / 30)) := by
  have H : ∀ (n : Nat) (l : List RawSlot), l.length = n →
      (splitChunks l).2 = l.drop (30 * (l.length / 30)) := by
    intro n
    induction n using Nat.strong_induction_on with
    | _ n ih =>
      intro l hlen
      by_cases h30 : l.length < 30
      · rw [splitChunks_eq, if_pos h30]
        have : l.length / 30 = 0 := by omega
        rw [this]
        simp
      · rw [splitChunks_eq, if_neg h30]
        have hdp : (l.drop 30).length = l.length - 30 := by simp
        rw [ih (l.length - 30) (by omega) (l.drop 30) hdp, List.drop_drop, hdp]
        have : 30 + 30 * ((l.length - 30) / 30) = 30 * (l.length / 30) := by omega
        rw [this]
  exact H l.length l rfl

/-- The trailing chunk holds fewer than 30 slots. -/
lemma splitChunks_snd_length (l : List RawSlot) :
    (splitChunks l).2.length = l.length % 30 := by
  rw [splitChunks_snd]
  simp only [List.length_drop]
  omega

/-- Full chunk `k` is the 30-slot window starting at slot `30 * k`. -/
lemma splitChunks_fst_getElem (l : List RawSlot) :
    ∀ k : Nat, k < l.length / 30 →
      (splitChunks l).1[k]? = some ((l.drop (30 * k)).take 30) := by
  have H : ∀ (n : Nat) (l : List RawSlot), l.length = n →
      ∀ k : Nat, k < l.length / 30 →
      (splitChunks l).1[k]? = some ((l.drop (30 * k)).take 30) := by
    intro n
    induction n using Nat.strong_induction_on with
    | _ n ih =>
      intro l hlen k hk
      by_cases h30 : l.length < 30
      · exfalso
        omega
      · rw [splitChunks_eq, if_neg h30]
        have hdp : (l.drop 30).length = l.length - 30 := by simp
        cases k with
        | zero =>
          simp
        | succ k =>
          rw [List.getElem?_cons_succ,
            ih (l.length - 30) (by omega) (l.drop 30) hdp k (by omega),
            List.drop_drop]
          have : 30 + 30 * k = 30 * (k + 1) := by omega
          rw [this]
  exact H l.length l rfl

/-- Every full chunk holds exactly 30 slots. -/
lemma splitChunks_fst_mem_length (l : List RawSlot) :
    ∀ c ∈ (splitChunks l).1, c.length = 30 := by
  have H : ∀ (n : Nat) (l : List RawSlot), l.length = n →
      ∀ c ∈ (splitChunks l).1, c.length = 30 := by
    intro n
    induction n using Nat.strong_induction_on with
    | _ n ih =>
      intro l hlen c hc
      by_cases h30 : l.length < 30
      · rw [splitChunks_eq, if_pos h30] at hc
        simp at hc
      · rw [splitChunks_eq, if_neg h30] at hc
        have hdp : (l.drop 30).length = l.length - 30 := by simp
        rcases List.mem_cons.mp hc with h | h
        · rw [h]
          simp only [List.length_take]
          omega
        · exact ih (l.length - 30) (by omega) (l.drop 30) hdp c h
  exact H l.length l rfl

/-- Concatenating the full chunks and the trailing chunk recovers the
original slot sequence. -/
lemma splitChunks_join (l : List RawSlot) :
    (splitChunks l).1.flatten ++ (splitChunks l).2 = l := by
  have H : ∀ (n : Nat) (l : List RawSlot), l.length = n →
      (splitChunks l).1.flatten ++ (splitChunks l).2 = l := by
    intro n
    induction n using Nat.strong_induction_on with
    | _ n ih =>
      intro l hlen
      by_cases h30 : l.length < 30
      · rw [splitChunks_eq, if_pos h30]
        simp
      · rw [splitChunks_eq, if_neg h30]
        have hdp : (l.drop 30).length = l.length - 30 := by simp
        simp only [List.flatten_cons, List.append_assoc]
        rw [ih (l.length - 30) (by omega) (l.drop 30) hdp,
          List.take_append_drop]
  exact H l.length l rfl

/-- `recordsOf` over a flattened chunk list. -/
lemma recordsOf_flatten (parse : RawSlot → Except DecodeError PokemonRecord) :
    ∀ ls : List (List RawSlot),
      recordsOf parse ls.flatten = (ls.map (recordsOf parse)).flatten := by
  intro ls
  induction ls with
  | nil => rfl
  | cons c rest ih =>
    simp only [List.flatten_cons, List.map_cons, recordsOf_append, ih]

/-- A slot sequence never yields more records than slots. -/
lemma recordsOf_length_le (parse : RawSlot → Except DecodeError PokemonRecord)
    (slots : List RawSlot) :
    (recordsOf parse slots).length ≤ slots.length :=
  List.length_filterMap_le _ _

/-- When every slot is non-empty and parses, each slot yields exactly
one record. -/
lemma recordsOf_length_all_ok (parse : RawSlot → Except DecodeError PokemonRecord) :
    ∀ slots : List RawSlot,
      (∀ s ∈ slots, isEmptySlot s = false) →
      (∀ s ∈ slots, ∃ r, parse s = Except.ok r) →
      (recordsOf parse slots).length = slots.length := by
  intro slots
  induction slots with
  | nil => intro _ _; rfl
  | cons p rest ih =>
    intro hne hok
    obtain ⟨r, hr⟩ := hok p (List.mem_cons_self p rest)
    have hp : slotRecord parse p = some r := by
      unfold slotRecord
      rw [hne p (List.mem_cons_self p rest)]
      simp [hr, Except.toOption]
    rw [recordsOf_cons, hp]
    simp only [Option.toList_some, List.singleton_append, List.length_cons,
      List.length_cons]
    rw [ih (fun s hs => hne s (List.mem_cons_of_mem p hs))
      (fun s hs => hok s (List.mem_cons_of_mem p hs))]

/-- The records of the box loop, flattened, are exactly the records of
the whole slot sequence, in order. -/
lemma boxLoop_flatten (parse : RawSlot → Except DecodeError PokemonRecord)
    (slots : List RawSlot) :
    (boxLoop parse slots).flatten = recordsOf parse slots := by
  rw [boxLoop_eq]
  conv_rhs => rw [← splitChunks_join slots]
  rw [recordsOf_append, recordsOf_flatten]
  by_cases h : (recordsOf parse (splitChunks slots).2).isEmpty
  · rw [if_pos h, List.isEmpty_iff.mp h]
    simp
  · rw [if_neg h]
    simp

/-- Decryption preserves the payload length. -/
lemma decryptFrom_length (key : Nat) :
    ∀ (l : List Nat) (i : Nat), (decryptFrom key i l).length = l.length := by
  intro l
  induction l with
  | nil => intro i; rfl
  | cons b rest ih =>
    intro i
    simp [decryptFrom, ih]

/-- Key bytes are bytes. -/
lemma keyByte_lt (key i : Nat) : keyByte key i < 256 :=
  Nat.mod_lt _ (by omega)

/-- Decryption is bytewise: overwriting payload byte `j` only changes
decrypted byte `j`, to the new byte XORed with the same key byte. -/
lemma decryptFrom_set (key : Nat) :
    ∀ (l : List Nat) (i j y : Nat), j < l.length →
      decryptFrom key i (l.set j y) =
        (decryptFrom key i l).set j (y ^^^ keyByte key ((i + j) % 4)) := by
  intro l
  induction l with
  | nil => intro i j y h; simp at h
  | cons b rest ih =>
    intro i j y h
    cases j with
    | zero => simp [decryptFrom]
    | succ j =>
      simp only [List.set_cons_succ, decryptFrom, List.length_cons] at h ⊢
      rw [ih (i + 1) j y (by omega)]
      have : i + 1 + j = i + (j + 1) := by omega
      rw [this]

/-- The decrypted byte at position `j`. -/
lemma decryptFrom_getD (key : Nat) :
    ∀ (l : List Nat) (i j : Nat), j < l.length →
      (decryptFrom key i l).getD j 0 = l.getD j 0 ^^^ keyByte key ((i + j) % 4) := by
  intro l
  induction l with
  | nil => intro i j h; simp at h
  | cons b rest ih =>
    intro i j h
    cases j with
    | zero => simp [decryptFrom]
    | succ j =>
      simp only [decryptFrom, List.getD_cons_succ, List.length_cons] at h ⊢
      rw [ih (i + 1) j (by omega)]
      have : i + 1 + j = i + (j + 1) := by omega
      rw [this]

/-- Overwriting byte `j` changes the 16-bit-word sum by the weighted
difference of the old and new byte: the byte's weight is `1` at even
offsets (low byte of its word) and `256` at odd offsets (high byte). -/
theorem checksumSum_set :
    ∀ (l : List Nat) (j y : Nat), j < l.length →
      checksumSum (l.set j y) + (if j % 2 = 0 then 1 else 256) * l.getD j 0 =
        checksumSum l + (if j % 2 = 0 then 1 else 256) * y
  | [], j, y, h => by simp at h
  | [a], 0, y, h => by simp [checksumSum]; omega
  | [a], j + 1, y, h => by simp at h
  | a :: b :: rest, 0, y, h => by simp [checksumSum]; omega
  | a :: b :: rest, 1, y, h => by simp [checksumSum]; omega
  | a :: b :: rest, j + 2, y, h => by
    have ih := checksumSum_set rest j y (by
      simp only [List.length_cons] at h
      omega)
    have hpar : (j + 2) % 2 = j % 2 := Nat.add_mod_right j 2
    simp only [List.set_cons_succ, checksumSum, List.getD_cons_succ, hpar]
    omega

/-- Changing one decrypted byte (to a different byte value) always
changes the 16-bit wrapping checksum. -/
lemma checksum_change (dec : List Nat) (j y' : Nat) (hj : j < dec.length)
    (hx : dec.getD j 0 < 256) (hy : y' < 256) (hne : y' ≠ dec.getD j 0) :
    checksumSum (dec.set j y') % 65536 ≠ checksumSum dec % 65536 := by
  intro habs
  have hset := checksumSum_set dec j y' hj
  by_cases hp : j % 2 = 0
  · rw [if_pos hp] at hset
    omega
  · rw [if_neg hp] at hset
    omega

/-- Bytes stay bytes under XOR with a key byte. -/
lemma xor_keyByte_lt {b : Nat} (hb : b < 256) (key i : Nat) :
    b ^^^ keyByte key i < 256 := by
  have h1 : b < 2 ^ 8 := by omega
  have h2 : keyByte key i < 2 ^ 8 := by
    have := keyByte_lt key i
    omega
  have := Nat.xor_lt_two_pow h1 h2
  omega

/-- A record whose decode succeeds has a validating checksum. -/
lemma decode_isOk_checksum {r : RawRecord} (h : (decode r).isOk = true) :
    checksumSum (decryptBytes (r.personality ^^^ r.otid) r.payload) % 65536 =
      r.storedChecksum := by
  by_cases hc : checksumSum (decryptBytes (r.personality ^^^ r.otid) r.payload)
      % 65536 = r.storedChecksum
  · exact hc
  · exfalso
    simp only [decode] at h
    rw [if_neg hc] at h
    simp [Except.isOk, Except.toBool] at h

/-- A record whose checksum does not validate decodes to the checksum
error. -/
lemma decode_eq_checksum_error {r : RawRecord}
    (h : ¬ checksumSum (decryptBytes (r.personality ^^^ r.otid) r.payload)
      % 65536 = r.storedChecksum) :
    decode r = Except.error DecodeError.Checksum := by
  simp only [decode]
  rw [if_neg h]

/-- A slot that fails to parse contributes no record. -/
lemma slotRecord_of_error {parse : RawSlot → Except DecodeError PokemonRecord}
    {p : RawSlot} {e : DecodeError} (h : parse p = Except.error e) :
    slotRecord parse p = none := by
  unfold slotRecord
  by_cases hp : isEmptySlot p = true
  · simp [hp]
  · simp [hp, h, Except.toOption]

/-- A non-empty slot that parses contributes its record. -/
lemma slotRecord_of_ok {parse : RawSlot → Except DecodeError PokemonRecord}
    {p : RawSlot} {r : PokemonRecord} (hne : isEmptySlot p = false)
    (h : parse p = Except.ok r) :
    slotRecord parse p = some r := by
  unfold slotRecord
  rw [hne]
  simp [h, Except.toOption]

/-! ## Claim theorems -/

/-- C1: if parsing one slot fails, the batch does not abort: in both the
party loop and the box pipeline, every slot before and after the failed
one is still processed exactly as it would be without the failure, and
the failed slot contributes no record (no substitute takes its place).
(The loops are total, so no failure can abort them.) -/
theorem c1_slot_failure_isolated
    (parse : RawSlot → Except DecodeError PokemonRecord)
    (pre post : List RawSlot) (bad : RawSlot) (e : DecodeError)
    (hbad : parse bad = Except.error e) :
    partyLoop parse (pre ++ bad :: post) =
      partyLoop parse pre ++ partyLoop parse post ∧
    recordsOf parse (pre ++ bad :: post) =
      recordsOf parse pre ++ recordsOf parse post ∧
    (boxLoop parse (pre ++ bad :: post)).flatten =
      recordsOf parse pre ++ recordsOf parse post := by
  have hrec : recordsOf parse (pre ++ bad :: post) =
      recordsOf parse pre ++ recordsOf parse post := by
    rw [recordsOf_append, recordsOf_cons, slotRecord_of_error hbad]
    simp
  refine ⟨?_, hrec, ?_⟩
  · rw [partyLoop_eq_recordsOf, partyLoop_eq_recordsOf, partyLoop_eq_recordsOf,
      hrec]
  · rw [boxLoop_flatten, hrec]

/-- Witness for C1 at a concrete input: the parser fails on slot `[1]`
sitting between slots `[2]` and `[3]`. -/
theorem c1_slot_failure_isolated_witness :
    oneFailParse [1] = Except.error DecodeError.Checksum ∧
    (partyLoop oneFailParse ([[2]] ++ [1] :: [[3]]) =
      partyLoop oneFailParse [[2]] ++ partyLoop oneFailParse [[3]] ∧
    recordsOf oneFailParse ([[2]] ++ [1] :: [[3]]) =
      recordsOf oneFailParse [[2]] ++ recordsOf oneFailParse [[3]] ∧
    (boxLoop oneFailParse ([[2]] ++ [1] :: [[3]])).flatten =
      recordsOf oneFailParse [[2]] ++ recordsOf oneFailParse [[3]]) :=
  ⟨rfl, c1_slot_failure_isolated oneFailParse [[2]] [[3]] [1]
    DecodeError.Checksum rfl⟩

/-- C4: an all-zero raw slot never produces a PokemonRecord: both loops
silently skip it (its parser is never consulted — the equations hold
for every parser) and, the loops being total functions, no error is
raised. -/
theorem c4_empty_slot_skipped
    (parse : RawSlot → Except DecodeError PokemonRecord)
    (z : RawSlot) (hz : ∀ b ∈ z, b = 0) (pre post : List RawSlot) :
    partyLoop parse (pre ++ z :: post) = partyLoop parse (pre ++ post) ∧
    recordsOf parse (pre ++ z :: post) = recordsOf parse (pre ++ post) := by
  have hslot : slotRecord parse z = none := by
    unfold slotRecord
    rw [isEmptySlot_of_all_zero hz]
    simp
  have hrec : recordsOf parse (pre ++ z :: post) =
      recordsOf parse (pre ++ post) := by
    rw [recordsOf_append, recordsOf_cons, hslot, recordsOf_append]
    simp
  exact ⟨by rw [partyLoop_eq_recordsOf, partyLoop_eq_recordsOf, hrec], hrec⟩

/-- Witness for C4 at a concrete input: the all-zero slot `[0, 0]`
between slots `[2]` and `[3]`. -/
theorem c4_empty_slot_skipped_witness :
    (∀ b ∈ ([0, 0] : RawSlot), b = 0) ∧
    (partyLoop oneFailParse ([[2]] ++ [0, 0] :: [[3]]) =
      partyLoop oneFailParse ([[2]] ++ [[3]]) ∧
    recordsOf oneFailParse ([[2]] ++ [0, 0] :: [[3]]) =
      recordsOf oneFailParse ([[2]] ++ [[3]])) :=
  ⟨by decide, c4_empty_slot_skipped oneFailParse [0, 0] (by decide) [[2]] [[3]]⟩

/-- C5: when the extractor hands the party loop at most 6 slots (the
party extractor's contract, modelled from the spec), the party output
is exactly the records of the non-empty successfully-parsed slots in
their original order, and so never exceeds 6 records. -/
theorem c5_party_bound_and_order
    (parse : RawSlot → Except DecodeError PokemonRecord)
    (slots : List RawSlot) (h6 : slots.length ≤ 6) :
    partyLoop parse slots = recordsOf parse slots ∧
    (partyLoop parse slots).length ≤ 6 := by
  refine ⟨partyLoop_eq_recordsOf parse slots, ?_⟩
  rw [partyLoop_eq_recordsOf]
  exact le_trans (recordsOf_length_le parse slots) h6

/-- Witness for C5 at the spec's example: slots
[empty, A, empty, B, C, empty] yield output [A, B, C] in that order. -/
theorem c5_party_bound_and_order_witness :
    exSlots.length ≤ 6 ∧
    (partyLoop exParse exSlots = recordsOf exParse exSlots ∧
      (partyLoop exParse exSlots).length ≤ 6) ∧
    partyLoop exParse exSlots = [recA, recB, recC] :=
  ⟨by decide, c5_party_bound_and_order exParse exSlots (by decide), by decide⟩

/-- C6: if section location fails, the whole parse fails with that very
error: `parse_sav_file` returns the locator's error unchanged (so no
partial party or box results are surfaced), for every choice of the
remaining collaborators. -/
theorem c6_locator_failure_fatal
    (locate : List Nat → Except SaveError SaveBlocks)
    (party_slots : List Nat → List RawSlot)
    (box_slots : List Nat → List Nat → List RawSlot)
    (partyParse boxParse : RawSlot → Except DecodeError PokemonRecord)
    (dm : GameDataManager) (raw : List Nat) (e : SaveError)
    (h : locate raw = Except.error e) :
    parse_sav_file locate party_slots box_slots partyParse boxParse dm raw =
      Except.error e := by
  unfold parse_sav_file
  rw [h]

/-- Witness for C6 at a concrete input: a locator that reports
`CorruptImage` on the empty image. -/
theorem c6_locator_failure_fatal_witness :
    locFail [] = Except.error SaveError.CorruptImage ∧
    parse_sav_file locFail noSlots noBoxSlots okParse okParse dmTrivial [] =
      Except.error SaveError.CorruptImage :=
  ⟨rfl, c6_locator_failure_fatal locFail noSlots noBoxSlots okParse okParse
    dmTrivial [] SaveError.CorruptImage rfl⟩

/-- C10: every successful parse reports a `total_pokemon` equal to the
number of party records plus the sum of the sizes of the box-groups of
that same result. -/
theorem c10_total_pokemon_consistent
    (locate : List Nat → Except SaveError SaveBlocks)
    (party_slots : List Nat → List RawSlot)
    (box_slots : List Nat → List Nat → List RawSlot)
    (partyParse boxParse : RawSlot → Except DecodeError PokemonRecord)
    (dm : GameDataManager) (raw : List Nat) (res : ParseResult)
    (h : parse_sav_file locate party_slots box_slots partyParse boxParse dm raw =
      Except.ok res) :
    res.total_pokemon = res.party.length + (res.boxes.map List.length).sum := by
  unfold parse_sav_file at h
  cases hl : locate raw with
  | error e =>
    rw [hl] at h
    simp at h
  | ok blocks =>
    rw [hl] at h
    simp only [Except.ok.injEq] at h
    rw [← h]
    simp [List.map_map, Function.comp_def, List.length_map]

/-- Witness for C10 at a concrete input: a successful parse of the
empty image with empty extractors. -/
theorem c10_total_pokemon_consistent_witness :
    parse_sav_file locOk noSlots noBoxSlots okParse okParse dmTrivial [] =
      Except.ok { party := [], boxes := [], total_pokemon := 0 } ∧
    ({ party := [], boxes := [], total_pokemon := 0 } : ParseResult).total_pokemon =
      ({ party := [], boxes := [], total_pokemon := 0 } : ParseResult).party.length +
        (({ party := [], boxes := [], total_pokemon := 0 } : ParseResult).boxes.map
          List.length).sum :=
  ⟨rfl, c10_total_pokemon_consistent locOk noSlots noBoxSlots okParse okParse
    dmTrivial [] { party := [], boxes := [], total_pokemon := 0 } rfl⟩

/-- C2: 65 box slots, all populated and all parsing successfully, yield
exactly 3 box-groups of sizes 30, 30 and 5, in that order. -/
theorem c2_box_chunking
    (parse : RawSlot → Except DecodeError PokemonRecord)
    (slots : List RawSlot) (h65 : slots.length = 65)
    (hne : ∀ s ∈ slots, isEmptySlot s = false)
    (hok : ∀ s ∈ slots, ∃ r, parse s = Except.ok r) :
    (boxLoop parse slots).map List.length = [30, 30, 5] := by
  have hsubf : ∀ c ∈ (splitChunks slots).1, ∀ x ∈ c, x ∈ slots := by
    intro c hc x hx
    have h1 : x ∈ (splitChunks slots).1.flatten := List.mem_flatten.mpr ⟨c, hc, hx⟩
    have h2 := List.mem_append_left (splitChunks slots).2 h1
    rwa [splitChunks_join] at h2
  have hsubs : ∀ x ∈ (splitChunks slots).2, x ∈ slots := by
    intro x hx
    have h2 := List.mem_append_right (splitChunks slots).1.flatten hx
    rwa [splitChunks_join] at h2
  have hlens : (splitChunks slots).2.length = 5 := by
    rw [splitChunks_snd_length, h65]
  have hrecs : (recordsOf parse (splitChunks slots).2).length = 5 := by
    rw [recordsOf_length_all_ok parse _ (fun s hs => hne s (hsubs s hs))
      (fun s hs => hok s (hsubs s hs)), hlens]
  have hne2 : (recordsOf parse (splitChunks slots).2).isEmpty = false := by
    apply Bool.eq_false_iff.mpr
    intro hb
    rw [List.isEmpty_iff.mp hb] at hrecs
    simp at hrecs
  rw [boxLoop_eq, hne2]
  have hmap : ((splitChunks slots).1.map (recordsOf parse)).map List.length =
      List.replicate 2 30 := by
    rw [List.map_map, List.eq_replicate_iff]
    constructor
    · rw [List.length_map, splitChunks_fst_length, h65]
    · intro b hb
      obtain ⟨c, hc, hbc⟩ := List.mem_map.mp hb
      rw [← hbc]
      simp only [Function.comp_apply]
      rw [recordsOf_length_all_ok parse c (fun s hs => hne s (hsubf c hc s hs))
        (fun s hs => hok s (hsubf c hc s hs)),
        splitChunks_fst_mem_length slots c hc]
  simp only [Bool.false_eq_true, if_false, List.map_append, hmap, List.map_cons,
    List.map_nil, hrecs]
  rfl

/-- Witness for C2 at a concrete input: 65 copies of the populated slot
`[1]` under an always-succeeding parser. -/
theorem c2_box_chunking_witness :
    (List.replicate 65 ([1] : RawSlot)).length = 65 ∧
    (boxLoop okParse (List.replicate 65 ([1] : RawSlot))).map List.length =
      [30, 30, 5] :=
  ⟨by decide,
    c2_box_chunking okParse (List.replicate 65 ([1] : RawSlot)) (by decide)
      (by
        intro s hs
        rw [List.eq_of_mem_replicate hs]
        rfl)
      (fun s _ => ⟨rec0, rfl⟩)⟩

/-- C3: the box-group a slot's record lands in is fixed purely by the
slot's index: a slot at index `i` that yields a record lands in group
`i / 30`, and that group is exactly the records of the 30-slot window
starting at slot `30 * (i / 30)` — empty or failed slots inside the
window only remove their own record, they never shift the grouping. -/
theorem c3_slot_counts_toward_boundary
    (parse : RawSlot → Except DecodeError PokemonRecord)
    (slots : List RawSlot) (i : Nat) (s : RawSlot) (r : PokemonRecord)
    (hi : slots[i]? = some s) (hne : isEmptySlot s = false)
    (hok : parse s = Except.ok r) :
    (boxLoop parse slots)[i / 30]? =
      some (recordsOf parse ((slots.drop (30 * (i / 30))).take 30)) ∧
    r ∈ recordsOf parse ((slots.drop (30 * (i / 30))).take 30) := by
  have hilen : i < slots.length := by
    rcases List.getElem?_eq_some.mp hi with ⟨h, _⟩
    exact h
  have hw : ((slots.drop (30 * (i / 30))).take 30)[i - 30 * (i / 30)]? = some s := by
    rw [List.getElem?_take, if_pos (by omega), List.getElem?_drop]
    have heq : 30 * (i / 30) + (i - 30 * (i / 30)) = i := by omega
    rw [heq, hi]
  have hmem : r ∈ recordsOf parse ((slots.drop (30 * (i / 30))).take 30) := by
    apply List.mem_filterMap.mpr
    refine ⟨s, ?_, slotRecord_of_ok hne hok⟩
    rcases List.getElem?_eq_some.mp hw with ⟨h, hh⟩
    exact hh ▸ List.getElem_mem h
  refine ⟨?_, hmem⟩
  rw [boxLoop_eq]
  by_cases hk : i / 30 < slots.length / 30
  · rw [List.getElem?_append,
      if_pos (by rw [List.length_map, splitChunks_fst_length]; exact hk),
      List.getElem?_map, splitChunks_fst_getElem slots (i / 30) hk]
    rfl
  · have hkeq : i / 30 = slots.length / 30 := by omega
    have htake : (slots.drop (30 * (i / 30))).take 30 =
        slots.drop (30 * (i / 30)) := by
      apply List.take_of_length_le
      simp only [List.length_drop]
      omega
    have hsnd : (splitChunks slots).2 = slots.drop (30 * (i / 30)) := by
      rw [splitChunks_snd, hkeq]
    have hrec2 : recordsOf parse (splitChunks slots).2 =
        recordsOf parse ((slots.drop (30 * (i / 30))).take 30) := by
      rw [hsnd, htake]
    have hne2 : (recordsOf parse (splitChunks slots).2).isEmpty = false := by
      apply Bool.eq_false_iff.mpr
      intro hb
      rw [hrec2] at hb
      rw [List.isEmpty_iff.mp hb] at hmem
      simp at hmem
    rw [hne2]
    simp only [Bool.false_eq_true, if_false]
    rw [List.getElem?_append,
      if_neg (by rw [List.length_map, splitChunks_fst_length]; omega)]
    have hix : i / 30 - ((splitChunks slots).1.map (recordsOf parse)).length = 0 := by
      rw [List.length_map, splitChunks_fst_length]
      omega
    rw [hix]
    simp [hrec2]

/-- Witness for C3 at a concrete input: slot index 30 of a 31-slot
sequence lands in group 1, the window of slots 30–59. -/
theorem c3_slot_counts_toward_boundary_witness :
    (List.replicate 31 ([1] : RawSlot))[30]? = some [1] ∧
    isEmptySlot [1] = false ∧
    okParse [1] = Except.ok rec0 ∧
    ((boxLoop okParse (List.replicate 31 ([1] : RawSlot)))[30 / 30]? =
      some (recordsOf okParse
        (((List.replicate 31 ([1] : RawSlot)).drop (30 * (30 / 30))).take 30)) ∧
    rec0 ∈ recordsOf okParse
        (((List.replicate 31 ([1] : RawSlot)).drop (30 * (30 / 30))).take 30)) :=
  ⟨by decide, by decide, rfl,
    c3_slot_counts_toward_boundary okParse (List.replicate 31 ([1] : RawSlot))
      30 [1] rec0 (by decide) (by decide) rfl⟩

/-- C7: mutating any single byte of a valid record's encrypted payload
(to a different byte value, without recomputing the stored checksum)
makes decode fail with `DecodeError.Checksum`; it can never silently
succeed with wrong data. -/
theorem c7_checksum_rejects_mutation (r : RawRecord) (j y : Nat)
    (hok : (decode r).isOk = true)
    (hj : j < r.payload.length)
    (hbytes : ∀ b ∈ r.payload, b < 256)
    (hy : y < 256) (hne : y ≠ r.payload.getD j 0) :
    decode { r with payload := r.payload.set j y } =
      Except.error DecodeError.Checksum := by
  have hvalid := decode_isOk_checksum hok
  have hx : r.payload.getD j 0 < 256 := by
    rw [List.getD_eq_getElem r.payload 0 hj]
    exact hbytes _ (List.getElem_mem hj)
  have hdeclen : j < (decryptBytes (r.personality ^^^ r.otid) r.payload).length := by
    unfold decryptBytes
    rw [decryptFrom_length]
    exact hj
  have hdgetD : (decryptBytes (r.personality ^^^ r.otid) r.payload).getD j 0 =
      r.payload.getD j 0 ^^^ keyByte (r.personality ^^^ r.otid) (j % 4) := by
    unfold decryptBytes
    rw [decryptFrom_getD (r.personality ^^^ r.otid) r.payload 0 j hj]
    simp
  have hdset : decryptBytes (r.personality ^^^ r.otid) (r.payload.set j y) =
      (decryptBytes (r.personality ^^^ r.otid) r.payload).set j
        (y ^^^ keyByte (r.personality ^^^ r.otid) (j % 4)) := by
    unfold decryptBytes
    rw [decryptFrom_set (r.personality ^^^ r.otid) r.payload 0 j y hj]
    simp
  have hxlt : (decryptBytes (r.personality ^^^ r.otid) r.payload).getD j 0 < 256 := by
    rw [hdgetD]
    exact xor_keyByte_lt hx (r.personality ^^^ r.otid) (j % 4)
  have hylt : y ^^^ keyByte (r.personality ^^^ r.otid) (j % 4) < 256 :=
    xor_keyByte_lt hy (r.personality ^^^ r.otid) (j % 4)
  have hneq : y ^^^ keyByte (r.personality ^^^ r.otid) (j % 4) ≠
      (decryptBytes (r.personality ^^^ r.otid) r.payload).getD j 0 := by
    rw [hdgetD]
    intro heq
    exact hne (Nat.xor_left_inj.mp heq)
  have hchange := checksum_change (decryptBytes (r.personality ^^^ r.otid) r.payload)
    j (y ^^^ keyByte (r.personality ^^^ r.otid) (j % 4)) hdeclen hxlt hylt hneq
  exact decode_eq_checksum_error (by
    intro habs
    rw [hdset] at habs
    exact hchange (habs.trans hvalid.symm))

/-- Witness for C7 at a concrete input: flipping byte 0 of the all-zero
record's payload from 0 to 1 makes decode fail with the checksum
error. -/
theorem c7_checksum_rejects_mutation_witness :
    (decode r0).isOk = true ∧
    decode { r0 with payload := r0.payload.set 0 1 } =
      Except.error DecodeError.Checksum :=
  ⟨by decide,
    c7_checksum_rejects_mutation r0 0 1 (by decide) (by decide) (by decide)
      (by decide) (by decide)⟩

/-- C8: every successfully decoded record has all six IV components in
the range 0–31 (they are 5-bit fields of the Miscellaneous word). -/
theorem c8_iv_range (r : RawRecord) (rec : PokemonRecord)
    (h : decode r = Except.ok rec) :
    rec.ivs.hp ≤ 31 ∧ rec.ivs.attack ≤ 31 ∧ rec.ivs.defense ≤ 31 ∧
    rec.ivs.special_attack ≤ 31 ∧ rec.ivs.special_defense ≤ 31 ∧
    rec.ivs.speed ≤ 31 := by
  simp only [decode] at h
  by_cases hc : checksumSum (decryptBytes (r.personality ^^^ r.otid) r.payload)
      % 65536 = r.storedChecksum
  · rw [if_pos hc] at h
    simp only [Except.ok.injEq] at h
    rw [← h]
    simp only []
    refine ⟨?_, ?_, ?_, ?_, ?_, ?_⟩ <;> omega
  · rw [if_neg hc] at h
    exact absurd h (by simp)

/-- Witness for C8 at a concrete input: the all-zero record decodes
successfully and its IVs are within range. -/
theorem c8_iv_range_witness :
    decode r0 = Except.ok rec0 ∧
    (rec0.ivs.hp ≤ 31 ∧ rec0.ivs.attack ≤ 31 ∧ rec0.ivs.defense ≤ 31 ∧
    rec0.ivs.special_attack ≤ 31 ∧ rec0.ivs.special_defense ≤ 31 ∧
    rec0.ivs.speed ≤ 31) :=
  ⟨rfl, c8_iv_range r0 rec0 rfl⟩

set_option maxRecDepth 8192 in
/-- C9: a full 30-slot group is always emitted, even with zero records,
while the trailing group (fewer than 30 slots) is emitted only when it
holds at least one record — so an input whose trailing slots are all
empty can yield fewer box-groups than the ceiling of `slots / 30`
(witnessed by 35 all-empty slots: 1 group instead of 2). -/
theorem c9_trailing_box_only_if_nonempty :
    (∀ (parse : RawSlot → Except DecodeError PokemonRecord)
        (slots : List RawSlot),
      boxLoop parse slots =
        (splitChunks slots).1.map (recordsOf parse) ++
          (if (recordsOf parse (splitChunks slots).2).isEmpty then []
           else [recordsOf parse (splitChunks slots).2]) ∧
      (boxLoop parse slots).length =
        slots.length / 30 +
          (if (recordsOf parse (splitChunks slots).2).isEmpty then 0 else 1)) ∧
    (boxLoop okParse (List.replicate 35 ([0] : RawSlot))).length <
      (35 + 30 - 1) / 30 := by
  constructor
  · intro parse slots
    refine ⟨boxLoop_eq parse slots, ?_⟩
    rw [boxLoop_eq, List.length_append, List.length_map, splitChunks_fst_length]
    by_cases h : (recordsOf parse (splitChunks slots).2).isEmpty
    · simp [h]
    · simp [h]
  · decide

end SavePipeline
